import Mathlib

/-!
Shallow embedding of the interactive perspective-crop / document-corner
editing engine of this repository.

Sources embedded:
- src/services/cvService.ts : `detectDocumentCorners` (candidate-selection
  loop, coordinate restoration, final corner sorting), `applyPerspectiveCrop`
  (target sizing and the call sequence into the OpenCV backend),
  `autoCropImage`.
- src/unnamed/part_007 (the editor modal) : the default 10%-inset corner set
  of `handlePerformAutoDetection`, the corner/edge drag branches of
  `handleWindowMouseMove` with their per-coordinate clamping, and the handle
  hit-testing of `handleMouseDown` with its zoom-adjusted radius.

JavaScript numbers are modelled as exact rationals.  `Math.round` rounds half
toward positive infinity, exactly as Mathlib's `round`.  `Math.hypot` values
are nonnegative and only ever compared or maximised, so they are carried
squared (real square roots are noncomputable); the theorems state the
square-root facts over `ℝ`.  Calls into the external OpenCV library
(`window.cv`) are modelled as inputs or as an explicit backend parameter.
-/

namespace DocScan

/-- Two-dimensional point with exact rational coordinates, modelling the
TypeScript `Point {x, y}` in natural image-pixel space (src/services/cvService.ts
and src/unnamed/part_007). -/
structure Pt where
  x : ℚ
  y : ℚ
deriving DecidableEq, Repr

/-- Per-coordinate clamp `Math.max(0, Math.min(hi, v))` used by
`handleWindowMouseMove` (src/unnamed/part_007). -/
def clampCoord (hi v : ℚ) : ℚ := max 0 (min hi v)

/-- Array read `points[i]`; the editor's points array always has length 4, the
default value is never read on the inputs the theorems consider. -/
def getP (ps : List Pt) (i : ℕ) : Pt := ps.getD i ⟨0, 0⟩

/-- Default 10%-inset corner set from `handlePerformAutoDetection`
(src/unnamed/part_007): `[(0.1w,0.1h),(0.9w,0.1h),(0.9w,0.9h),(0.1w,0.9h)]`.
The literals 0.1 and 0.9 are modelled exactly; at the concrete sizes the
claims use, binary64 evaluation agrees. -/
def initDefaultList (w h : ℚ) : List Pt :=
  [⟨w * (1/10), h * (1/10)⟩, ⟨w * (9/10), h * (1/10)⟩,
   ⟨w * (9/10), h * (9/10)⟩, ⟨w * (1/10), h * (9/10)⟩]

/-- Natural-space drag delta of `handleWindowMouseMove`:
`deltaX = (e.clientX - dragStartPosRef.current.x) * scale`, same for y. -/
def naturalDelta (clientNow dragStart : Pt) (scale : ℚ) : Pt :=
  ⟨(clientNow.x - dragStart.x) * scale, (clientNow.y - dragStart.y) * scale⟩

/-- Corner-drag branch of `handleWindowMouseMove` (src/unnamed/part_007):
entry `i` of the drag-start corner set is moved by the natural-space delta and
clamped componentwise to `[0,w] x [0,h]`; the other entries are copied
unchanged. -/
def moveCorner (start : List Pt) (i : ℕ) (dragStart clientNow : Pt)
    (scale w h : ℚ) : List Pt :=
  let d := naturalDelta clientNow dragStart scale
  start.set i ⟨clampCoord w ((getP start i).x + d.x),
               clampCoord h ((getP start i).y + d.y)⟩

/-- Edge-drag branch of `handleWindowMouseMove` (src/unnamed/part_007):
corners `i` and `(i+1) % 4` are each moved by the same natural-space delta and
independently clamped; the source mutates index `i` first and then index
`(i+1) % 4` on a copy of the drag-start array. -/
def moveEdge (start : List Pt) (i : ℕ) (dragStart clientNow : Pt)
    (scale w h : ℚ) : List Pt :=
  let d := naturalDelta clientNow dragStart scale
  let i2 := (i + 1) % 4
  let s1 := start.set i ⟨clampCoord w ((getP start i).x + d.x),
                         clampCoord h ((getP start i).y + d.y)⟩
  s1.set i2 ⟨clampCoord w ((getP s1 i2).x + d.x),
             clampCoord h ((getP s1 i2).y + d.y)⟩

/-- Bounds predicate of the clamp invariant: the point lies in
`[0,w] x [0,h]`. -/
def inBounds (p : Pt) (w h : ℚ) : Prop :=
  0 ≤ p.x ∧ p.x ≤ w ∧ 0 ≤ p.y ∧ p.y ≤ h

instance (p : Pt) (w h : ℚ) : Decidable (inBounds p w h) := by
  unfold inBounds; infer_instance

/-- Sum `p.x + p.y`, used to pick TL/BR in the final corner sorting of
`detectDocumentCorners` (src/services/cvService.ts). -/
def csum (p : Pt) : ℚ := p.x + p.y

/-- Difference `p.y - p.x`, used to pick TR/BL in the final corner sorting of
`detectDocumentCorners` (src/services/cvService.ts). -/
def cdiff (p : Pt) : ℚ := p.y - p.x

/-- Minimum of four values, `Math.min(a, b, c, d)`. -/
def min4 (a b c d : ℚ) : ℚ := min (min (min a b) c) d

/-- Maximum of four values, `Math.max(a, b, c, d)`. -/
def max4 (a b c d : ℚ) : ℚ := max (max (max a b) c) d

/-- First index of `v` in the four-element array `[a, b, c, d]`, as computed
by the source's `sums.indexOf(...)` / `diffs.indexOf(...)`.  The source only
queries values that occur in the array (the minimum or maximum of its
entries); on an absent value this total version returns 3. -/
def indexOf4 (a b c _d v : ℚ) : Fin 4 :=
  if a = v then 0 else if b = v then 1 else if c = v then 2 else 3

/-- Indexing of the four candidate points, the source's `bestPoints[i]`. -/
def pick4 (p0 p1 p2 p3 : Pt) : Fin 4 → Pt
  | 0 => p0
  | 1 => p1
  | 2 => p2
  | 3 => p3

/-- Final corner sorting of `detectDocumentCorners` (src/services/cvService.ts
lines 107-118): `sorted[0]` is the point at the first index attaining the
minimal `x+y`, `sorted[2]` the first attaining the maximal `x+y`, `sorted[1]`
the first attaining the minimal `y-x`, `sorted[3]` the first attaining the
maximal `y-x`; returned in order `[TL, TR, BR, BL]`. -/
def sortCanonical (p0 p1 p2 p3 : Pt) : List Pt :=
  let ps := pick4 p0 p1 p2 p3
  let iTL := indexOf4 (csum p0) (csum p1) (csum p2) (csum p3)
               (min4 (csum p0) (csum p1) (csum p2) (csum p3))
  let iBR := indexOf4 (csum p0) (csum p1) (csum p2) (csum p3)
               (max4 (csum p0) (csum p1) (csum p2) (csum p3))
  let iTR := indexOf4 (cdiff p0) (cdiff p1) (cdiff p2) (cdiff p3)
               (min4 (cdiff p0) (cdiff p1) (cdiff p2) (cdiff p3))
  let iBL := indexOf4 (cdiff p0) (cdiff p1) (cdiff p2) (cdiff p3)
               (max4 (cdiff p0) (cdiff p1) (cdiff p2) (cdiff p3))
  [ps iTL, ps iTR, ps iBR, ps iBL]

/-- Application of the corner sort to a four-element list (identity on other
lengths, which do not occur in the source). -/
def resort (l : List Pt) : List Pt :=
  match l with
  | [a, b, c, d] => sortCanonical a b c d
  | _ => l

/-- Rounding of a candidate corner back to original-image coordinates:
`Math.round(v / scale)` on each coordinate (src/services/cvService.ts).
JavaScript's `Math.round` rounds half toward positive infinity, exactly as
Mathlib's `round`. -/
def roundPt (scale : ℚ) (p : Pt) : Pt :=
  ⟨(round (p.x / scale) : ℤ), (round (p.y / scale) : ℤ)⟩

/-- Per-contour output of the external OpenCV stages, as consumed by the
selection loop of `detectDocumentCorners`: `cv.contourArea(cnt)`, the vertices
of `cv.approxPolyDP`, and the four vertices of
`cv.RotatedRect.points(cv.minAreaRect(cnt))` (always four by construction),
all in downscaled-image coordinates.  These are inputs of the embedding
because `window.cv` is an external library. -/
structure Contour where
  area : ℚ
  approx : List Pt
  rectPts : Fin 4 → Pt

/-- One iteration of the contour-selection loop of `detectDocumentCorners`
(src/services/cvService.ts lines 68-103); the state is
`(bestPoints, maxArea)`.  Contours below 15% of the downscaled frame area are
skipped.  CASE A accepts a 4-vertex polygon of new largest area and updates
`maxArea`; CASE B falls back to the minimum-area-rectangle vertices when no
candidate exists yet and deliberately does not update `maxArea` (source
comment: a later exact quad is preferred).  Candidate coordinates are divided
by the downscale factor and rounded; no clamping is applied. -/
def scanContour (rows cols scale : ℚ) (st : Option (List Pt) × ℚ)
    (c : Contour) : Option (List Pt) × ℚ :=
  if c.area < rows * cols * (15/100) then st
  else if c.approx.length = 4 ∧ st.2 < c.area then
    (some (c.approx.map (roundPt scale)), c.area)
  else if st.2 < c.area ∧ st.1 = none then
    (some [roundPt scale (c.rectPts 0), roundPt scale (c.rectPts 1),
           roundPt scale (c.rectPts 2), roundPt scale (c.rectPts 3)], st.2)
  else st

/-- Candidate selection and final sorting of `detectDocumentCorners`: fold the
contour loop from `(null, 0)`, then sort the best candidate (which always
holds exactly four points) into `[TL, TR, BR, BL]`. -/
def detectPost (rows cols scale : ℚ) (cs : List Contour) : Option (List Pt) :=
  ((cs.foldl (scanContour rows cols scale) (none, 0)).1).map resort

/-- Possible situations feeding `detectDocumentCorners`: the OpenCV library
never becomes available, so the awaited `waitForCV` (src/services/cvService.ts
lines 20-24) throws after its 100 retries, before the inner promise is even
constructed; the source image fails to load (`img.onerror`); some call in the
try-block throws (caught, `resolve(null)`); or the pipeline runs and produces
the downscaled dimensions, the scale factor and the contour list. -/
inductive DetectOutcome where
  | cvUnavailable : DetectOutcome
  | loadFailed : DetectOutcome
  | cvThrew : DetectOutcome
  | pipeline (rows cols scale : ℚ) (contours : List Contour) : DetectOutcome

/-- Settlement of the promise returned by the async `detectDocumentCorners`:
either it resolves with `Point[] | null`, or it rejects (which happens exactly
when the awaited `waitForCV` throws — the inner promise itself only ever
resolves). -/
inductive DetectResult where
  | resolved (corners : Option (List Pt)) : DetectResult
  | rejected : DetectResult
deriving DecidableEq

/-- Promise settlement of `detectDocumentCorners` (src/services/cvService.ts):
`await waitForCV()` rethrows out of the async function when OpenCV never
loads, rejecting the returned promise; once OpenCV is available, the inner
promise only ever resolves — a load failure and a caught pipeline exception
both resolve with `null` (here `none`). -/
def detectDocumentCorners : DetectOutcome → DetectResult
  | .cvUnavailable => .rejected
  | .loadFailed => .resolved none
  | .cvThrew => .resolved none
  | .pipeline rows cols scale cs => .resolved (detectPost rows cols scale cs)

/-- Editor state after `handlePerformAutoDetection` (src/unnamed/part_007
lines 66-86) settles: either `setPoints` ran (with the detected corners or the
default inset) and `setIsProcessing(false)` re-enabled the editor, or the
awaited detection rejected — the function has no try/catch, so the fallback
never runs, `setIsProcessing(false)` is never reached, and the editor stays
blocked behind the processing overlay. -/
inductive EditorState where
  | pointsSet (ps : List Pt) : EditorState
  | blocked : EditorState
deriving DecidableEq

/-- Corner initialisation of `handlePerformAutoDetection`
(src/unnamed/part_007): use the detected corners when present, fall back to
the default 10%-inset rectangle on a `null` result, and block on an uncaught
rejection of the awaited detection. -/
def handlePerformAutoDetection (r : DetectResult) (w h : ℚ) : EditorState :=
  match r with
  | .resolved (some ps) => .pointsSet ps
  | .resolved none => .pointsSet (initDefaultList w h)
  | .rejected => .blocked

/-- Square of `Math.hypot(dx, dy)`.  The source only compares and maximises
hypot values, which for nonnegative operands commutes with squaring; the
square is kept because real square roots are noncomputable, and the theorems
state the square-root facts over `ℝ`. -/
def hypotSq (dx dy : ℚ) : ℚ := dx ^ 2 + dy ^ 2

/-- Squared target width of `applyPerspectiveCrop`
(src/services/cvService.ts): `targetW = Math.max(wTop, wBottom)` with
`wTop = hypot(points[1] - points[0])` and
`wBottom = hypot(points[2] - points[3])`, squared. -/
def targetWSq (pts : List Pt) : ℚ :=
  max (hypotSq ((getP pts 1).x - (getP pts 0).x) ((getP pts 1).y - (getP pts 0).y))
      (hypotSq ((getP pts 2).x - (getP pts 3).x) ((getP pts 2).y - (getP pts 3).y))

/-- Squared target height of `applyPerspectiveCrop`
(src/services/cvService.ts): `targetH = Math.max(hLeft, hRight)` with
`hLeft = hypot(points[3] - points[0])` and
`hRight = hypot(points[2] - points[1])`, squared. -/
def targetHSq (pts : List Pt) : ℚ :=
  max (hypotSq ((getP pts 3).x - (getP pts 0).x) ((getP pts 3).y - (getP pts 0).y))
      (hypotSq ((getP pts 2).x - (getP pts 1).x) ((getP pts 2).y - (getP pts 1).y))

/-- Opaque 3x3 matrix produced by the external `cv.getPerspectiveTransform`. -/
def CvMat := List ℚ

/-- Output raster; its dimensions are carried squared, matching the squared
size datum handed to the backend (see `targetWSq`). -/
structure Raster where
  wSq : ℚ
  hSq : ℚ
deriving DecidableEq, Repr

/-- The external OpenCV backend (`window.cv`) as used by
`applyPerspectiveCrop`: the homography solve and the warp.  An exception
thrown anywhere inside the try-block is modelled by `warpPerspective`
returning `none`.  The destination rectangle datum `cv.Size(targetW, targetH)`
is passed as the squared target dimensions, an equivalent datum since the
target dimensions are nonnegative. -/
structure CvBackend where
  getPerspectiveTransform : List Pt → ℚ → ℚ → CvMat
  warpPerspective : CvMat → ℚ → ℚ → Option Raster

/-- Promise resolution of `applyPerspectiveCrop`: `ok` (resolve with the
rasterised data URL), `errLoad` (`img.onerror` rejects) or `errCaught` (an
exception in the try-block rejects with the raw error).  The source has no
other failure mode; in particular it never constructs a degenerate-geometry
condition. -/
inductive WarpResult where
  | ok (r : Raster) : WarpResult
  | errLoad : WarpResult
  | errCaught : WarpResult
deriving DecidableEq, Repr

/-- Shallow embedding of `applyPerspectiveCrop` (src/services/cvService.ts
lines 142-181): compute the target dimensions from the corner side lengths
and unconditionally invoke the external transform and warp; no geometric
precondition of any kind is tested before the calls. -/
def applyPerspectiveCrop (cv : CvBackend) (loadOk : Bool) (pts : List Pt) :
    WarpResult :=
  if loadOk = false then .errLoad
  else
    let tW := targetWSq pts
    let tH := targetHSq pts
    let M := cv.getPerspectiveTransform pts tW tH
    match cv.warpPerspective M tW tH with
    | some r => .ok r
    | none => .errCaught

/-- Nominal OpenCV behaviour: `cv.getPerspectiveTransform` always returns a
matrix (on a singular correspondence system OpenCV's LU solve silently yields
a zero matrix rather than throwing) and `cv.warpPerspective` always produces
a raster of the requested destination size. -/
def cvNominal : CvBackend where
  getPerspectiveTransform := fun _ _ _ => List.replicate 9 0
  warpPerspective := fun _ w h => some ⟨w, h⟩

/-- Three points are collinear: the cross product of the two difference
vectors vanishes. -/
def collinear3 (a b c : Pt) : Prop :=
  (b.x - a.x) * (c.y - a.y) - (b.y - a.y) * (c.x - a.x) = 0

instance (a b c : Pt) : Decidable (collinear3 a b c) := by
  unfold collinear3; infer_instance

/-- Cross product of consecutive edges `a -> b -> c`, used to state strict
convexity of a cyclic vertex order. -/
def cross (a b c : Pt) : ℚ :=
  (b.x - a.x) * (c.y - a.y) - (b.y - a.y) * (c.x - a.x)

/-- The cyclic polygon `a -> b -> c -> d` is strictly convex: all cross
products of consecutive edges are positive. -/
def convexCyclic (a b c d : Pt) : Prop :=
  0 < cross a b c ∧ 0 < cross b c d ∧ 0 < cross c d a ∧ 0 < cross d a b

instance (a b c d : Pt) : Decidable (convexCyclic a b c d) := by
  unfold convexCyclic; infer_instance

/-- Zoom-adjusted handle hit radius of `handleMouseDown`
(src/unnamed/part_007): `const handleRadius = 25 / zoom`. -/
def handleRadius (zoom : ℚ) : ℚ := 25 / zoom

/-- Handle acceptance test of `handleMouseDown`:
`Math.hypot(clientX - px, clientY - py) < handleRadius`, modelled by the
equivalent squared comparison; the equivalence holds for the positive radii
that occur (the UI keeps zoom within `[0.2, 5]`), and the theorems state the
square-root form over `ℝ`. -/
def hitsHandle (client handle : Pt) (zoom : ℚ) : Bool :=
  decide (hypotSq (client.x - handle.x) (client.y - handle.y) < handleRadius zoom ^ 2)

/-- Screen position of corner handle `i` in `handleMouseDown`:
`points[i].x / scale + imgRect.left` and the analogue for y. -/
def cornerScreenPos (p : Pt) (scale rectLeft rectTop : ℚ) : Pt :=
  ⟨p.x / scale + rectLeft, p.y / scale + rectTop⟩

/-- Screen position of the midpoint handle of edge `i` in `handleMouseDown`:
`(p1.x + p2.x) / 2 / scale + imgRect.left` and the analogue for y. -/
def midScreenPos (p1 p2 : Pt) (scale rectLeft rectTop : ℚ) : Pt :=
  ⟨(p1.x + p2.x) / 2 / scale + rectLeft, (p1.y + p2.y) / 2 / scale + rectTop⟩

/-- Drag target of the editor: a corner handle or an edge-midpoint handle. -/
inductive DragTarget where
  | corner (i : Fin 4) : DragTarget
  | edge (i : Fin 4) : DragTarget
deriving DecidableEq, Repr

/-- Hit-testing order of `handleMouseDown` (src/unnamed/part_007): the four
corner handles in index order, then the four edge-midpoint handles in index
order; the first handle within the zoom-adjusted radius wins. -/
def hitTest (pts : List Pt) (client : Pt) (zoom scale rectLeft rectTop : ℚ) :
    Option DragTarget :=
  match (List.finRange 4).find? (fun i =>
      hitsHandle client (cornerScreenPos (getP pts i.1) scale rectLeft rectTop) zoom) with
  | some i => some (.corner i)
  | none =>
    match (List.finRange 4).find? (fun i =>
        hitsHandle client
          (midScreenPos (getP pts i.1) (getP pts ((i.1 + 1) % 4)) scale rectLeft rectTop)
          zoom) with
    | some i => some (.edge i)
    | none => none

/-- Shallow embedding of `autoCropImage` (src/services/cvService.ts lines
191-195): the detection result and the warp continuation are parameters (both
are awaited external calls); a `null` detection returns the input URL
unchanged without invoking the warp. -/
def autoCropImage (corners : Option (List Pt)) (warp : List Pt → String)
    (imageUrl : String) : String :=
  match corners with
  | none => imageUrl
  | some ps => warp ps

/-- C5: for a 1000x800 image, the default corner initialisation returns
exactly {(100,80),(900,80),(900,720),(100,720)}; dragging the TL corner (index
0) by (+50,+50) in screen space with client-to-natural scale 1 (zoom 1,
image rendered at natural size) yields TL = (150,130) with the other three
corners unchanged. -/
theorem endToEndScenario :
    initDefaultList 1000 800 = [⟨100, 80⟩, ⟨900, 80⟩, ⟨900, 720⟩, ⟨100, 720⟩] ∧
    moveCorner (initDefaultList 1000 800) 0 ⟨0, 0⟩ ⟨50, 50⟩ 1 1000 800 =
      [⟨150, 130⟩, ⟨900, 80⟩, ⟨900, 720⟩, ⟨100, 720⟩] := by
  constructor <;>
    norm_num [initDefaultList, moveCorner, getP, naturalDelta, clampCoord,
      List.set, Pt.mk.injEq, min_def, max_def]

/-- C8 counterexample: the auto-detector CAN reject.  When OpenCV never
becomes available, the awaited `waitForCV` throws after its 100 retries
(src/services/cvService.ts lines 20-24), rejecting `detectDocumentCorners`'
promise, and `handlePerformAutoDetection` (src/unnamed/part_007) has no
try/catch: the fallback to the default inset never runs and the editor stays
blocked behind the processing overlay — not the default inset corner set. -/
theorem detectorNeverThrowsCounterexample :
    detectDocumentCorners .cvUnavailable = DetectResult.rejected ∧
    handlePerformAutoDetection (detectDocumentCorners .cvUnavailable) 1000 800 =
      EditorState.blocked ∧
    EditorState.blocked ≠ EditorState.pointsSet (initDefaultList 1000 800) := by
  refine ⟨rfl, rfl, ?_⟩
  simp

/-- C8 amended: once OpenCV is available, the auto-detector never rejects — a
source-image load failure and any exception inside the pipeline resolve with
`none`, and the caller uses a non-null result as-is and falls back to the
default 10%-inset corner set on `null`; but if OpenCV never loads, the
awaited `waitForCV` rejects the promise and the caller's uncaught rejection
leaves the editor blocked instead of falling back. -/
theorem detectorNeverThrowsAmended :
    (∀ o : DetectOutcome, o ≠ .cvUnavailable →
      detectDocumentCorners o ≠ DetectResult.rejected) ∧
    detectDocumentCorners .loadFailed = .resolved none ∧
    detectDocumentCorners .cvThrew = .resolved none ∧
    (∀ w h : ℚ, handlePerformAutoDetection (.resolved none) w h =
      .pointsSet (initDefaultList w h)) ∧
    (∀ ps w h, handlePerformAutoDetection (.resolved (some ps)) w h =
      .pointsSet ps) ∧
    (∀ w h : ℚ, handlePerformAutoDetection .rejected w h = .blocked) := by
  refine ⟨?_, rfl, rfl, fun _ _ => rfl, fun _ _ _ => rfl, fun _ _ => rfl⟩
  intro o ho
  cases o with
  | cvUnavailable => exact absurd rfl ho
  | loadFailed => simp [detectDocumentCorners]
  | cvThrew => simp [detectDocumentCorners]
  | pipeline rows cols scale cs => simp [detectDocumentCorners]

/-- C8 witness: the amended theorem's no-rejection conjunct applied at the
load-failure outcome. -/
theorem detectorNeverThrowsWitness :
    detectDocumentCorners .loadFailed ≠ DetectResult.rejected :=
  detectorNeverThrowsAmended.1 .loadFailed (by simp)

/-- C10: when corner detection returns `null`, `autoCropImage` returns exactly
its input URL, for every possible warp continuation — so the warp is not
invoked. -/
theorem autoCropNullPassthrough (warp : List Pt → String) (url : String) :
    autoCropImage none warp url = url := rfl

/-- C2 counterexample: at the spec's own degenerate example
TL=(0,0), TR=(50,0), BR=(100,0), BL=(0,100) (three collinear points), the warp
does not fail with a degenerate-geometry condition: with the nominal
non-throwing OpenCV backend it resolves with a raster (squared target
dimensions 20000 x 10000, i.e. 100*sqrt2 x 100).  No determinant is inspected
anywhere in `applyPerspectiveCrop`. -/
theorem degenerateCheckCounterexample :
    collinear3 ⟨0, 0⟩ ⟨50, 0⟩ ⟨100, 0⟩ ∧
    applyPerspectiveCrop cvNominal true [⟨0, 0⟩, ⟨50, 0⟩, ⟨100, 0⟩, ⟨0, 100⟩] =
      WarpResult.ok ⟨20000, 10000⟩ := by
  constructor
  · norm_num [collinear3]
  · norm_num [applyPerspectiveCrop, cvNominal, targetWSq, targetHSq, hypotSq,
      getP, max_def, Raster.mk.injEq]

/-- C2 amended: `applyPerspectiveCrop` performs no proactive degeneracy or
determinant check.  For every backend and every corner set — degenerate ones
included — if the backend's calls return without throwing, the operation
resolves with the produced raster; the only failure modes are the image-load
error and a post-hoc caught exception, never a degenerate-geometry
condition. -/
theorem degenerateCheckAmended (cv : CvBackend) (pts : List Pt) (r : Raster)
    (hw : cv.warpPerspective
            (cv.getPerspectiveTransform pts (targetWSq pts) (targetHSq pts))
            (targetWSq pts) (targetHSq pts) = some r) :
    applyPerspectiveCrop cv true pts = WarpResult.ok r ∧
    (∀ q : List Pt, applyPerspectiveCrop cv false q = WarpResult.errLoad) ∧
    (∀ cv2 : CvBackend, ∀ q : List Pt,
      cv2.warpPerspective
          (cv2.getPerspectiveTransform q (targetWSq q) (targetHSq q))
          (targetWSq q) (targetHSq q) = none →
      applyPerspectiveCrop cv2 true q = WarpResult.errCaught) := by
  refine ⟨?_, fun _ => rfl, fun cv2 q hq => ?_⟩
  · simp [applyPerspectiveCrop, hw]
  · simp [applyPerspectiveCrop, hq]

/-- C3: the warp's target width is the maximum of the Euclidean lengths of
the top and bottom sides (|TR-TL| and |BR-BL|) and its target height the
maximum of the Euclidean lengths of the left and right sides (|BL-TL| and
|BR-TR|); in particular, for an axis-aligned rectangle TL=(0,0), TR=(W,0),
BR=(W,H), BL=(0,H) the destination rectangle handed to the warp is exactly
W x H. -/
theorem warpTargetSizing :
    (∀ pts : List Pt,
      Real.sqrt ((targetWSq pts : ℚ) : ℝ) =
        max (Real.sqrt ((((getP pts 1).x - (getP pts 0).x : ℚ) : ℝ) ^ 2 +
                        (((getP pts 1).y - (getP pts 0).y : ℚ) : ℝ) ^ 2))
            (Real.sqrt ((((getP pts 2).x - (getP pts 3).x : ℚ) : ℝ) ^ 2 +
                        (((getP pts 2).y - (getP pts 3).y : ℚ) : ℝ) ^ 2)) ∧
      Real.sqrt ((targetHSq pts : ℚ) : ℝ) =
        max (Real.sqrt ((((getP pts 3).x - (getP pts 0).x : ℚ) : ℝ) ^ 2 +
                        (((getP pts 3).y - (getP pts 0).y : ℚ) : ℝ) ^ 2))
            (Real.sqrt ((((getP pts 2).x - (getP pts 1).x : ℚ) : ℝ) ^ 2 +
                        (((getP pts 2).y - (getP pts 1).y : ℚ) : ℝ) ^ 2))) ∧
    (∀ W H : ℚ, 0 ≤ W → 0 ≤ H →
      Real.sqrt ((targetWSq [⟨0, 0⟩, ⟨W, 0⟩, ⟨W, H⟩, ⟨0, H⟩] : ℚ) : ℝ) = (W : ℝ) ∧
      Real.sqrt ((targetHSq [⟨0, 0⟩, ⟨W, 0⟩, ⟨W, H⟩, ⟨0, H⟩] : ℚ) : ℝ) = (H : ℝ)) := by
  have hmono : Monotone Real.sqrt := fun _ _ h => Real.sqrt_le_sqrt h
  constructor
  · intro pts
    constructor <;>
      · simp only [targetWSq, targetHSq, hypotSq, Rat.cast_max, hmono.map_max]
        push_cast
        rfl
  · intro W H hW hH
    have hW2 : targetWSq [⟨0, 0⟩, ⟨W, 0⟩, ⟨W, H⟩, ⟨0, H⟩] = W ^ 2 := by
      simp [targetWSq, hypotSq, getP]
    have hH2 : targetHSq [⟨0, 0⟩, ⟨W, 0⟩, ⟨W, H⟩, ⟨0, H⟩] = H ^ 2 := by
      simp [targetHSq, hypotSq, getP]
    rw [hW2, hH2]
    push_cast
    exact ⟨Real.sqrt_sq (by exact_mod_cast hW), Real.sqrt_sq (by exact_mod_cast hH)⟩

/-- C3 witness: the sizing theorem applied to the concrete 4 x 3 axis-aligned
rectangle. -/
theorem warpTargetSizingWitness :
    Real.sqrt ((targetWSq [⟨0, 0⟩, ⟨4, 0⟩, ⟨4, 3⟩, ⟨0, 3⟩] : ℚ) : ℝ) = ((4 : ℚ) : ℝ) ∧
    Real.sqrt ((targetHSq [⟨0, 0⟩, ⟨4, 0⟩, ⟨4, 3⟩, ⟨0, 3⟩] : ℚ) : ℝ) = ((3 : ℚ) : ℝ) :=
  warpTargetSizing.2 4 3 (by norm_num) (by norm_num)

/-- C2 witness: the amended theorem applied at the collinear example with the
nominal backend. -/
theorem degenerateCheckWitness :
    applyPerspectiveCrop cvNominal true [⟨0, 0⟩, ⟨50, 0⟩, ⟨0, 0⟩, ⟨0, 100⟩] =
      WarpResult.ok ⟨10000, 10000⟩ :=
  (degenerateCheckAmended cvNominal [⟨0, 0⟩, ⟨50, 0⟩, ⟨0, 0⟩, ⟨0, 100⟩]
    ⟨10000, 10000⟩ (by
      norm_num [cvNominal, targetWSq, targetHSq, hypotSq, getP, max_def,
        Raster.mk.injEq])).1

/-- C6: dragging edge `i` translates corners `i` and `(i+1) % 4` from their
drag-start positions by the same natural-space delta (computed from the
drag-start pointer position) and clamps each independently to the image
bounds; the other two corners are unchanged. -/
theorem edgeDragSpec (start : List Pt) (i : ℕ) (dragStart clientNow : Pt)
    (scale w h : ℚ) (hlen : start.length = 4) (hi : i < 4) :
    getP (moveEdge start i dragStart clientNow scale w h) i =
      ⟨clampCoord w ((getP start i).x + (naturalDelta clientNow dragStart scale).x),
       clampCoord h ((getP start i).y + (naturalDelta clientNow dragStart scale).y)⟩ ∧
    getP (moveEdge start i dragStart clientNow scale w h) ((i + 1) % 4) =
      ⟨clampCoord w ((getP start ((i + 1) % 4)).x + (naturalDelta clientNow dragStart scale).x),
       clampCoord h ((getP start ((i + 1) % 4)).y + (naturalDelta clientNow dragStart scale).y)⟩ ∧
    ∀ j, j < 4 → j ≠ i → j ≠ (i + 1) % 4 →
      getP (moveEdge start i dragStart clientNow scale w h) j = getP start j := by
  rcases start with _ | ⟨a, t⟩
  · simp at hlen
  rcases t with _ | ⟨b, t⟩
  · simp at hlen
  rcases t with _ | ⟨c, t⟩
  · simp at hlen
  rcases t with _ | ⟨d, t⟩
  · simp at hlen
  rcases t with _ | ⟨e, t⟩
  · interval_cases i <;>
      exact ⟨rfl, rfl, by intro j h4 h1 h2; interval_cases j <;> first | omega | rfl⟩
  · simp at hlen

/-- C6 witness: the edge-drag theorem applied to a concrete drag of edge 1 of
a 10 x 10 square by screen delta (5, 7) at scale 1. -/
theorem edgeDragSpecWitness :
    getP (moveEdge [⟨0, 0⟩, ⟨10, 0⟩, ⟨10, 10⟩, ⟨0, 10⟩] 1 ⟨0, 0⟩ ⟨5, 7⟩ 1 10 10) 1 =
      ⟨clampCoord 10 ((getP [⟨0, 0⟩, ⟨10, 0⟩, ⟨10, 10⟩, ⟨0, 10⟩] 1).x +
          (naturalDelta ⟨5, 7⟩ ⟨0, 0⟩ 1).x),
       clampCoord 10 ((getP [⟨0, 0⟩, ⟨10, 0⟩, ⟨10, 10⟩, ⟨0, 10⟩] 1).y +
          (naturalDelta ⟨5, 7⟩ ⟨0, 0⟩ 1).y)⟩ ∧
    getP (moveEdge [⟨0, 0⟩, ⟨10, 0⟩, ⟨10, 10⟩, ⟨0, 10⟩] 1 ⟨0, 0⟩ ⟨5, 7⟩ 1 10 10) 2 =
      ⟨clampCoord 10 ((getP [⟨0, 0⟩, ⟨10, 0⟩, ⟨10, 10⟩, ⟨0, 10⟩] 2).x +
          (naturalDelta ⟨5, 7⟩ ⟨0, 0⟩ 1).x),
       clampCoord 10 ((getP [⟨0, 0⟩, ⟨10, 0⟩, ⟨10, 10⟩, ⟨0, 10⟩] 2).y +
          (naturalDelta ⟨5, 7⟩ ⟨0, 0⟩ 1).y)⟩ ∧
    ∀ j, j < 4 → j ≠ 1 → j ≠ 2 →
      getP (moveEdge [⟨0, 0⟩, ⟨10, 0⟩, ⟨10, 10⟩, ⟨0, 10⟩] 1 ⟨0, 0⟩ ⟨5, 7⟩ 1 10 10) j =
        getP [⟨0, 0⟩, ⟨10, 0⟩, ⟨10, 10⟩, ⟨0, 10⟩] j :=
  edgeDragSpec [⟨0, 0⟩, ⟨10, 0⟩, ⟨10, 10⟩, ⟨0, 10⟩] 1 ⟨0, 0⟩ ⟨5, 7⟩ 1 10 10 rfl
    (by norm_num)

/-- C7: the hit-tester accepts a handle exactly when the Euclidean distance in
screen pixels between the pointer and the handle's screen position is below
25 divided by the current zoom; and whenever the full first-match hit test of
`handleMouseDown` returns a target, that target's handle satisfies this
acceptance test. -/
theorem hitRadiusSpec :
    (∀ zoom : ℚ, 0 < zoom → ∀ client handle : Pt,
      (hitsHandle client handle zoom = true ↔
        Real.sqrt (((client.x - handle.x : ℚ) : ℝ) ^ 2 +
                   ((client.y - handle.y : ℚ) : ℝ) ^ 2) <
          (25 : ℝ) / (zoom : ℝ))) ∧
    (∀ pts client zoom scale rectLeft rectTop i,
      hitTest pts client zoom scale rectLeft rectTop = some (.corner i) →
        hitsHandle client (cornerScreenPos (getP pts i.1) scale rectLeft rectTop) zoom
          = true) ∧
    (∀ pts client zoom scale rectLeft rectTop i,
      hitTest pts client zoom scale rectLeft rectTop = some (.edge i) →
        hitsHandle client
            (midScreenPos (getP pts i.1) (getP pts ((i.1 + 1) % 4)) scale rectLeft rectTop)
            zoom = true) := by
  refine ⟨?_, ?_, ?_⟩
  · intro zoom hz client handle
    have hzR : (0 : ℝ) < (zoom : ℚ) := by exact_mod_cast hz
    have h25 : (0 : ℝ) < 25 / ((zoom : ℚ) : ℝ) := by positivity
    rw [hitsHandle, decide_eq_true_iff, Real.sqrt_lt' h25, hypotSq, handleRadius]
    constructor
    · intro h
      push_cast
      exact_mod_cast h
    · intro h
      exact_mod_cast h
  · intro pts client zoom scale rectLeft rectTop i h
    rcases hf : (List.finRange 4).find? (fun k =>
        hitsHandle client (cornerScreenPos (getP pts k.1) scale rectLeft rectTop) zoom)
      with _ | j
    · rcases hf2 : (List.finRange 4).find? (fun k =>
          hitsHandle client
            (midScreenPos (getP pts k.1) (getP pts ((k.1 + 1) % 4)) scale rectLeft rectTop)
            zoom) with _ | j
      · simp [hitTest, hf, hf2] at h
      · simp [hitTest, hf, hf2] at h
    · have hj : j = i := by simp [hitTest, hf] at h; exact h
      subst hj
      have hp := List.find?_some hf
      simpa using hp
  · intro pts client zoom scale rectLeft rectTop i h
    rcases hf : (List.finRange 4).find? (fun k =>
        hitsHandle client (cornerScreenPos (getP pts k.1) scale rectLeft rectTop) zoom)
      with _ | j
    · rcases hf2 : (List.finRange 4).find? (fun k =>
          hitsHandle client
            (midScreenPos (getP pts k.1) (getP pts ((k.1 + 1) % 4)) scale rectLeft rectTop)
            zoom) with _ | j
      · simp [hitTest, hf, hf2] at h
      · have hj : j = i := by simp [hitTest, hf, hf2] at h; exact h
        subst hj
        have hp := List.find?_some hf2
        simpa using hp
    · simp [hitTest, hf] at h

/-- Bounds of a clamped coordinate. -/
theorem clampCoord_bounds (hi v : ℚ) (h : 0 ≤ hi) :
    0 ≤ clampCoord hi v ∧ clampCoord hi v ≤ hi :=
  ⟨le_max_left 0 _, max_le h (min_le_left hi v)⟩

/-- Bounds of a rounded-back detection coordinate: if, in the downscaled
image, the coordinate `q` lies in `[0, round(w * s) - 1]` (the downscaled
frame has `round(w * s)` pixels in this direction), then `round(q / s)` lies
in `[0, w]` for the original integer dimension `w`. -/
theorem roundDiv_bounds (w : ℕ) (s q : ℚ) (hs : 0 < s) (h0 : 0 ≤ q)
    (h1 : q ≤ ((round ((w : ℚ) * s) : ℤ) : ℚ) - 1) :
    0 ≤ ((round (q / s) : ℤ) : ℚ) ∧ ((round (q / s) : ℤ) : ℚ) ≤ (w : ℚ) := by
  constructor
  · have hq : (0 : ℚ) ≤ q / s := div_nonneg h0 hs.le
    rw [round_eq]
    exact_mod_cast Int.floor_nonneg.mpr (by linarith)
  · have hr : ((round ((w : ℚ) * s) : ℤ) : ℚ) ≤ (w : ℚ) * s + 1 / 2 := by
      have := abs_sub_round ((w : ℚ) * s)
      have h2 := abs_le.mp this
      linarith [h2.1]
    have hq1 : q ≤ (w : ℚ) * s - 1 / 2 := by linarith
    have hdiv : q / s ≤ ((w : ℚ) * s - 1 / 2) / s := (div_le_div_iff_of_pos_right hs).mpr hq1
    have heq : ((w : ℚ) * s - 1 / 2) / s = (w : ℚ) - 1 / (2 * s) := by
      field_simp
      ring
    have h2s : 0 < 1 / (2 * s) := by positivity
    have hlt : q / s + 1 / 2 < (w : ℚ) + 1 := by
      rw [heq] at hdiv
      linarith
    rw [round_eq]
    have : (⌊q / s + 1 / 2⌋ : ℤ) ≤ ((w : ℕ) : ℤ) := by
      rw [Int.floor_le_iff]
      push_cast
      linarith
    exact_mod_cast this

/-- C1 counterexample: the claim fails for auto-detection's
minimum-area-rectangle fallback.  For a 100 x 100 image (downscale factor 8,
downscaled frame 800 x 800), a contour above the area threshold whose polygon
approximation does not have 4 vertices takes the fallback path; the vertices
of `cv.minAreaRect` may lie outside the downscaled frame (a rotated rectangle
circumscribing an in-frame contour can protrude past the frame), and the
source rounds them back without any clamping.  With fallback vertex
(-12, 40), the detector returns a corner set containing (-1, 5), whose x
coordinate violates `0 <= x`. -/
theorem clampInvariantCounterexample :
    detectDocumentCorners (.pipeline 800 800 8
        [⟨100000, [⟨0, 0⟩, ⟨10, 10⟩, ⟨20, 0⟩],
          pick4 ⟨-12, 40⟩ ⟨400, 0⟩ ⟨760, 40⟩ ⟨400, 760⟩⟩]) =
      DetectResult.resolved (some [⟨-1, 5⟩, ⟨95, 5⟩, ⟨50, 95⟩, ⟨50, 95⟩]) ∧
    ¬ inBounds ⟨-1, 5⟩ 100 100 := by
  constructor
  · have h1 : scanContour 800 800 8 (none, 0)
        ⟨100000, [⟨0, 0⟩, ⟨10, 10⟩, ⟨20, 0⟩],
          pick4 ⟨-12, 40⟩ ⟨400, 0⟩ ⟨760, 40⟩ ⟨400, 760⟩⟩ =
        (some [⟨-1, 5⟩, ⟨50, 0⟩, ⟨95, 5⟩, ⟨50, 95⟩], 0) := by
      norm_num [scanContour, roundPt, round_eq, pick4, Pt.mk.injEq]
    have h2 : resort [⟨-1, 5⟩, ⟨50, 0⟩, ⟨95, 5⟩, ⟨50, 95⟩] =
        [⟨-1, 5⟩, ⟨95, 5⟩, ⟨50, 95⟩, ⟨50, 95⟩] := by
      norm_num [resort, sortCanonical, csum, cdiff, min4, max4, indexOf4, pick4,
        min_def, max_def, Pt.mk.injEq]
    show DetectResult.resolved (detectPost 800 800 8 _) = _
    rw [detectPost]
    simp only [List.foldl_cons, List.foldl_nil, h1, Option.map_some']
    rw [h2]
  · norm_num [inBounds]

/-- C1 amended: the clamp invariant holds for default initialisation and for
corner and edge drags (which clamp), and for detection's CASE A candidates it
holds whenever the contour vertices lie within the downscaled frame — but the
minimum-area-rectangle fallback performs no clamping, so the invariant does
not extend to it (see the counterexample).  Conjuncts: (1) every point of the
default inset lies in bounds; (2) a corner drag of an in-bounds corner set
stays in bounds; (3) an edge drag of an in-bounds corner set stays in bounds;
(4) a CASE A candidate coordinate inside the downscaled frame
`[0, round(dim * s) - 1]` rounds back into `[0, dim]`. -/
theorem clampInvariantAmended :
    (∀ w h : ℚ, 0 ≤ w → 0 ≤ h → ∀ p ∈ initDefaultList w h, inBounds p w h) ∧
    (∀ (start : List Pt) (i : ℕ) (dragStart clientNow : Pt) (scale w h : ℚ),
      0 ≤ w → 0 ≤ h → (∀ p ∈ start, inBounds p w h) →
      ∀ p ∈ moveCorner start i dragStart clientNow scale w h, inBounds p w h) ∧
    (∀ (start : List Pt) (i : ℕ) (dragStart clientNow : Pt) (scale w h : ℚ),
      0 ≤ w → 0 ≤ h → (∀ p ∈ start, inBounds p w h) →
      ∀ p ∈ moveEdge start i dragStart clientNow scale w h, inBounds p w h) ∧
    (∀ (w h : ℕ) (s : ℚ), 0 < s → ∀ p : Pt,
      0 ≤ p.x → p.x ≤ ((round ((w : ℚ) * s) : ℤ) : ℚ) - 1 →
      0 ≤ p.y → p.y ≤ ((round ((h : ℚ) * s) : ℤ) : ℚ) - 1 →
      inBounds (roundPt s p) (w : ℚ) (h : ℚ)) := by
  refine ⟨?_, ?_, ?_, ?_⟩
  · intro w h hw hh p hp
    simp only [initDefaultList, List.mem_cons, List.mem_singleton,
      List.not_mem_nil, or_false] at hp
    rcases hp with h1 | h1 | h1 | h1 <;> subst h1 <;>
      exact ⟨by nlinarith, by nlinarith, by nlinarith, by nlinarith⟩
  · intro start i dragStart clientNow scale w h hw hh hstart p hp
    simp only [moveCorner] at hp
    rcases List.mem_or_eq_of_mem_set hp with h1 | h1
    · exact hstart p h1
    · subst h1
      exact ⟨(clampCoord_bounds w _ hw).1, (clampCoord_bounds w _ hw).2,
             (clampCoord_bounds h _ hh).1, (clampCoord_bounds h _ hh).2⟩
  · intro start i dragStart clientNow scale w h hw hh hstart p hp
    simp only [moveEdge] at hp
    rcases List.mem_or_eq_of_mem_set hp with h1 | h1
    · rcases List.mem_or_eq_of_mem_set h1 with h2 | h2
      · exact hstart p h2
      · subst h2
        exact ⟨(clampCoord_bounds w _ hw).1, (clampCoord_bounds w _ hw).2,
               (clampCoord_bounds h _ hh).1, (clampCoord_bounds h _ hh).2⟩
    · subst h1
      exact ⟨(clampCoord_bounds w _ hw).1, (clampCoord_bounds w _ hw).2,
             (clampCoord_bounds h _ hh).1, (clampCoord_bounds h _ hh).2⟩
  · intro w h s hs p hx0 hx1 hy0 hy1
    obtain ⟨hxl, hxu⟩ := roundDiv_bounds w s p.x hs hx0 hx1
    obtain ⟨hyl, hyu⟩ := roundDiv_bounds h s p.y hs hy0 hy1
    exact ⟨hxl, hxu, hyl, hyu⟩

/-- C1 witness: the amended invariant applied at concrete inputs — the
default inset of a 1000 x 800 image, a corner drag and an edge drag of a
10 x 10 square at scale 1, and the rounding bound for a 100-pixel dimension
at downscale factor 8 with downscaled coordinate 799. -/
theorem clampInvariantWitness :
    (∀ p ∈ initDefaultList 1000 800, inBounds p 1000 800) ∧
    (∀ p ∈ moveCorner [⟨0, 0⟩, ⟨10, 0⟩, ⟨10, 10⟩, ⟨0, 10⟩] 0 ⟨0, 0⟩ ⟨50, 50⟩ 1 10 10,
      inBounds p 10 10) ∧
    (∀ p ∈ moveEdge [⟨0, 0⟩, ⟨10, 0⟩, ⟨10, 10⟩, ⟨0, 10⟩] 1 ⟨0, 0⟩ ⟨50, 50⟩ 1 10 10,
      inBounds p 10 10) ∧
    inBounds (roundPt 8 ⟨799, 639⟩) (100 : ℕ) (80 : ℕ) := by
  refine ⟨?_, ?_, ?_, ?_⟩
  · exact clampInvariantAmended.1 1000 800 (by norm_num) (by norm_num)
  · exact clampInvariantAmended.2.1 [⟨0, 0⟩, ⟨10, 0⟩, ⟨10, 10⟩, ⟨0, 10⟩] 0
      ⟨0, 0⟩ ⟨50, 50⟩ 1 10 10 (by norm_num) (by norm_num)
      (by intro p hp; fin_cases hp <;> norm_num [inBounds])
  · exact clampInvariantAmended.2.2.1 [⟨0, 0⟩, ⟨10, 0⟩, ⟨10, 10⟩, ⟨0, 10⟩] 1
      ⟨0, 0⟩ ⟨50, 50⟩ 1 10 10 (by norm_num) (by norm_num)
      (by intro p hp; fin_cases hp <;> norm_num [inBounds])
  · exact clampInvariantAmended.2.2.2 100 80 8 (by norm_num) ⟨799, 639⟩
      (by norm_num) (by norm_num [round_eq]) (by norm_num) (by norm_num [round_eq])

/-- C7 witness: the acceptance characterisation applied at zoom 1 with the
pointer at the origin and a handle at screen position (3, 4). -/
theorem hitRadiusSpecWitness :
    hitsHandle ⟨0, 0⟩ ⟨3, 4⟩ 1 = true ↔
      Real.sqrt (((0 - 3 : ℚ) : ℝ) ^ 2 + ((0 - 4 : ℚ) : ℝ) ^ 2) <
        (25 : ℝ) / ((1 : ℚ) : ℝ) :=
  hitRadiusSpec.1 1 (by norm_num) ⟨0, 0⟩ ⟨3, 4⟩

/-- A point whose coordinates are both integers. -/
def intPt (p : Pt) : Prop := ∃ m n : ℤ, p.x = (m : ℚ) ∧ p.y = (n : ℚ)

/-- Invariant of the contour-selection fold: the candidate is absent or holds
exactly four integer-coordinate points (every candidate coordinate is a
rounded value). -/
theorem scanFold_invariant (rows cols scale : ℚ) (cs : List Contour)
    (st : Option (List Pt) × ℚ)
    (hst : st.1 = none ∨ ∃ l, st.1 = some l ∧ l.length = 4 ∧ ∀ p ∈ l, intPt p) :
    (cs.foldl (scanContour rows cols scale) st).1 = none ∨
      ∃ l, (cs.foldl (scanContour rows cols scale) st).1 = some l ∧
        l.length = 4 ∧ ∀ p ∈ l, intPt p := by
  induction cs generalizing st with
  | nil => simpa using hst
  | cons c cs ih =>
    rw [List.foldl_cons]
    apply ih
    rw [scanContour]
    split_ifs with h1 h2 h3
    · exact hst
    · right
      refine ⟨_, rfl, ?_, ?_⟩
      · simp [h2.1]
      · intro p hp
        simp only [List.mem_map] at hp
        obtain ⟨q, _, rfl⟩ := hp
        exact ⟨round (q.x / scale), round (q.y / scale), rfl, rfl⟩
    · right
      refine ⟨_, rfl, by simp, ?_⟩
      intro p hp
      simp only [List.mem_cons, List.not_mem_nil, or_false] at hp
      rcases hp with rfl | rfl | rfl | rfl <;>
        exact ⟨round _, round _, rfl, rfl⟩
    · exact hst

/-- Every element of the sorted output is one of the four input points. -/
theorem pick4_cases (p0 p1 p2 p3 : Pt) (i : Fin 4) :
    pick4 p0 p1 p2 p3 i = p0 ∨ pick4 p0 p1 p2 p3 i = p1 ∨
    pick4 p0 p1 p2 p3 i = p2 ∨ pick4 p0 p1 p2 p3 i = p3 := by
  fin_cases i <;> simp [pick4]

/-- Every element of the sorted output is one of the four input points. -/
theorem sortCanonical_mem (p0 p1 p2 p3 : Pt) (p : Pt)
    (hp : p ∈ sortCanonical p0 p1 p2 p3) :
    p = p0 ∨ p = p1 ∨ p = p2 ∨ p = p3 := by
  simp only [sortCanonical, List.mem_cons, List.not_mem_nil, or_false] at hp
  rcases hp with rfl | rfl | rfl | rfl <;> exact pick4_cases p0 p1 p2 p3 _

/-- C9: whenever the auto-detector returns a non-null result, that result
contains exactly 4 points and every coordinate of every point is an integer
(both the 4-vertex polygon case and the minimum-area-rectangle fallback round
every candidate coordinate after dividing by the downscale factor, and the
final sort permutes candidate points). -/
theorem detectionResultShape (o : DetectOutcome) (ps : List Pt)
    (h : detectDocumentCorners o = .resolved (some ps)) :
    ps.length = 4 ∧ ∀ p ∈ ps, intPt p := by
  cases o with
  | cvUnavailable => simp [detectDocumentCorners] at h
  | loadFailed => simp [detectDocumentCorners] at h
  | cvThrew => simp [detectDocumentCorners] at h
  | pipeline rows cols scale cs =>
    simp only [detectDocumentCorners, detectPost, DetectResult.resolved.injEq] at h
    rcases hb : (cs.foldl (scanContour rows cols scale) (none, 0)).1 with _ | l
    · rw [hb] at h
      simp at h
    · rw [hb] at h
      simp only [Option.map_some'] at h
      have hps : ps = resort l := by
        injection h with h'
        exact h'.symm
      have hinv := scanFold_invariant rows cols scale cs (none, 0) (Or.inl rfl)
      rw [hb] at hinv
      rcases hinv with h' | ⟨l', hl', hlen, hint⟩
      · exact absurd h' (by simp)
      · have hll : l = l' := by simpa using hl'
        subst hll
        subst hps
        rcases l with _ | ⟨a, t⟩
        · simp at hlen
        rcases t with _ | ⟨b, t⟩
        · simp at hlen
        rcases t with _ | ⟨c, t⟩
        · simp at hlen
        rcases t with _ | ⟨d, t⟩
        · simp at hlen
        rcases t with _ | ⟨e, t⟩
        · constructor
          · rfl
          · intro p hp
            rcases sortCanonical_mem a b c d p hp with rfl | rfl | rfl | rfl
            · exact hint p (by simp)
            · exact hint p (by simp)
            · exact hint p (by simp)
            · exact hint p (by simp)
        · simp at hlen

/-- C9 witness: the shape theorem applied to a concrete pipeline outcome in
which CASE A accepts an 80 x 80 square contour at downscale factor 1. -/
theorem detectionResultShapeWitness :
    ([⟨0, 0⟩, ⟨80, 0⟩, ⟨80, 80⟩, ⟨0, 80⟩] : List Pt).length = 4 ∧
    ∀ p ∈ ([⟨0, 0⟩, ⟨80, 0⟩, ⟨80, 80⟩, ⟨0, 80⟩] : List Pt), intPt p :=
  detectionResultShape
    (.pipeline 800 800 1
      [⟨100000, [⟨0, 0⟩, ⟨80, 0⟩, ⟨80, 80⟩, ⟨0, 80⟩],
        pick4 ⟨0, 0⟩ ⟨0, 0⟩ ⟨0, 0⟩ ⟨0, 0⟩⟩])
    [⟨0, 0⟩, ⟨80, 0⟩, ⟨80, 80⟩, ⟨0, 80⟩]
    (by
      have h1 : scanContour 800 800 1 (none, 0)
          ⟨100000, [⟨0, 0⟩, ⟨80, 0⟩, ⟨80, 80⟩, ⟨0, 80⟩],
            pick4 ⟨0, 0⟩ ⟨0, 0⟩ ⟨0, 0⟩ ⟨0, 0⟩⟩ =
          (some [⟨0, 0⟩, ⟨80, 0⟩, ⟨80, 80⟩, ⟨0, 80⟩], 100000) := by
        norm_num [scanContour, roundPt, round_eq, Pt.mk.injEq]
      have h2 : resort [⟨0, 0⟩, ⟨80, 0⟩, ⟨80, 80⟩, ⟨0, 80⟩] =
          [⟨0, 0⟩, ⟨80, 0⟩, ⟨80, 80⟩, ⟨0, 80⟩] := by
        norm_num [resort, sortCanonical, csum, cdiff, min4, max4, indexOf4,
          pick4, min_def, max_def, Pt.mk.injEq]
      show DetectResult.resolved (detectPost 800 800 1 _) = _
      rw [detectPost]
      simp only [List.foldl_cons, List.foldl_nil, h1, Option.map_some']
      rw [h2])

/-- Indexing of four rational values, mirroring `pick4` on coordinates. -/
def pickQ4 (a b c d : ℚ) : Fin 4 → ℚ
  | 0 => a
  | 1 => b
  | 2 => c
  | 3 => d

/-- Composition of `pickQ4` with a coordinate function. -/
theorem pickQ4_comp (f : Pt → ℚ) (p0 p1 p2 p3 : Pt) (j : Fin 4) :
    pickQ4 (f p0) (f p1) (f p2) (f p3) j = f (pick4 p0 p1 p2 p3 j) := by
  fin_cases j <;> rfl

/-- The four-way minimum is bounded by each entry. -/
theorem min4_le_each (a b c d : ℚ) (j : Fin 4) :
    min4 a b c d ≤ pickQ4 a b c d j := by
  fin_cases j <;> simp [min4, pickQ4, min_le_iff]

/-- Each entry is bounded by the four-way maximum. -/
theorem le_max4_each (a b c d : ℚ) (j : Fin 4) :
    pickQ4 a b c d j ≤ max4 a b c d := by
  fin_cases j <;> simp [max4, pickQ4, le_max_iff]

/-- The four-way minimum is one of the entries. -/
theorem min4_choice (a b c d : ℚ) :
    min4 a b c d = a ∨ min4 a b c d = b ∨ min4 a b c d = c ∨ min4 a b c d = d := by
  unfold min4
  rcases min_choice (min (min a b) c) d with h | h
  · rw [h]
    rcases min_choice (min a b) c with h2 | h2
    · rw [h2]
      rcases min_choice a b with h3 | h3 <;> rw [h3] <;> tauto
    · rw [h2]; tauto
  · rw [h]; tauto

/-- The four-way maximum is one of the entries. -/
theorem max4_choice (a b c d : ℚ) :
    max4 a b c d = a ∨ max4 a b c d = b ∨ max4 a b c d = c ∨ max4 a b c d = d := by
  unfold max4
  rcases max_choice (max (max a b) c) d with h | h
  · rw [h]
    rcases max_choice (max a b) c with h2 | h2
    · rw [h2]
      rcases max_choice a b with h3 | h3 <;> rw [h3] <;> tauto
    · rw [h2]; tauto
  · rw [h]; tauto

/-- When `v` occurs exactly at index `i` of the four-element array,
`indexOf4` returns `i`. -/
theorem indexOf4_unique (a b c d v : ℚ) (i : Fin 4)
    (hv : pickQ4 a b c d i = v)
    (hu : ∀ j : Fin 4, j ≠ i → pickQ4 a b c d j ≠ v) :
    indexOf4 a b c d v = i := by
  fin_cases i
  · simp only [pickQ4] at hv
    subst hv
    simp [indexOf4]
  · have h0 := hu 0 (by decide)
    simp only [pickQ4] at hv h0
    subst hv
    simp [indexOf4, h0]
  · have h0 := hu 0 (by decide)
    have h1 := hu 1 (by decide)
    simp only [pickQ4] at hv h0 h1
    subst hv
    simp [indexOf4, h0, h1]
  · have h0 := hu 0 (by decide)
    have h1 := hu 1 (by decide)
    have h2 := hu 2 (by decide)
    simp only [pickQ4] at hv h0 h1 h2
    subst hv
    simp [indexOf4, h0, h1, h2]

/-- Characterisation of the corner sort under unique extremes: when the sums
and the differences each attain their minimum and maximum at a unique index,
the output is `[argmin(x+y), argmin(y-x), argmax(x+y), argmax(y-x)]` in the
order `[TL, TR, BR, BL]`. -/
theorem sortCanonical_eq (p0 p1 p2 p3 : Pt) (i0 i1 i2 i3 : Fin 4)
    (hTL : ∀ j, j ≠ i0 →
      csum (pick4 p0 p1 p2 p3 i0) < csum (pick4 p0 p1 p2 p3 j))
    (hTR : ∀ j, j ≠ i1 →
      cdiff (pick4 p0 p1 p2 p3 i1) < cdiff (pick4 p0 p1 p2 p3 j))
    (hBR : ∀ j, j ≠ i2 →
      csum (pick4 p0 p1 p2 p3 j) < csum (pick4 p0 p1 p2 p3 i2))
    (hBL : ∀ j, j ≠ i3 →
      cdiff (pick4 p0 p1 p2 p3 j) < cdiff (pick4 p0 p1 p2 p3 i3)) :
    sortCanonical p0 p1 p2 p3 =
      [pick4 p0 p1 p2 p3 i0, pick4 p0 p1 p2 p3 i1,
       pick4 p0 p1 p2 p3 i2, pick4 p0 p1 p2 p3 i3] := by
  have keyTL : ∀ j : Fin 4,
      csum (pick4 p0 p1 p2 p3 i0) ≤ csum (pick4 p0 p1 p2 p3 j) := by
    intro j
    by_cases hj : j = i0
    · rw [hj]
    · exact (hTL j hj).le
  have keyBR : ∀ j : Fin 4,
      csum (pick4 p0 p1 p2 p3 j) ≤ csum (pick4 p0 p1 p2 p3 i2) := by
    intro j
    by_cases hj : j = i2
    · rw [hj]
    · exact (hBR j hj).le
  have keyTR : ∀ j : Fin 4,
      cdiff (pick4 p0 p1 p2 p3 i1) ≤ cdiff (pick4 p0 p1 p2 p3 j) := by
    intro j
    by_cases hj : j = i1
    · rw [hj]
    · exact (hTR j hj).le
  have keyBL : ∀ j : Fin 4,
      cdiff (pick4 p0 p1 p2 p3 j) ≤ cdiff (pick4 p0 p1 p2 p3 i3) := by
    intro j
    by_cases hj : j = i3
    · rw [hj]
    · exact (hBL j hj).le
  have hminS : min4 (csum p0) (csum p1) (csum p2) (csum p3) =
      csum (pick4 p0 p1 p2 p3 i0) := by
    apply le_antisymm
    · have := min4_le_each (csum p0) (csum p1) (csum p2) (csum p3) i0
      rwa [pickQ4_comp] at this
    · rcases min4_choice (csum p0) (csum p1) (csum p2) (csum p3)
        with h | h | h | h <;> rw [h]
      · exact keyTL 0
      · exact keyTL 1
      · exact keyTL 2
      · exact keyTL 3
  have hmaxS : max4 (csum p0) (csum p1) (csum p2) (csum p3) =
      csum (pick4 p0 p1 p2 p3 i2) := by
    apply le_antisymm
    · rcases max4_choice (csum p0) (csum p1) (csum p2) (csum p3)
        with h | h | h | h <;> rw [h]
      · exact keyBR 0
      · exact keyBR 1
      · exact keyBR 2
      · exact keyBR 3
    · have := le_max4_each (csum p0) (csum p1) (csum p2) (csum p3) i2
      rwa [pickQ4_comp] at this
  have hminD : min4 (cdiff p0) (cdiff p1) (cdiff p2) (cdiff p3) =
      cdiff (pick4 p0 p1 p2 p3 i1) := by
    apply le_antisymm
    · have := min4_le_each (cdiff p0) (cdiff p1) (cdiff p2) (cdiff p3) i1
      rwa [pickQ4_comp] at this
    · rcases min4_choice (cdiff p0) (cdiff p1) (cdiff p2) (cdiff p3)
        with h | h | h | h <;> rw [h]
      · exact keyTR 0
      · exact keyTR 1
      · exact keyTR 2
      · exact keyTR 3
  have hmaxD : max4 (cdiff p0) (cdiff p1) (cdiff p2) (cdiff p3) =
      cdiff (pick4 p0 p1 p2 p3 i3) := by
    apply le_antisymm
    · rcases max4_choice (cdiff p0) (cdiff p1) (cdiff p2) (cdiff p3)
        with h | h | h | h <;> rw [h]
      · exact keyBL 0
      · exact keyBL 1
      · exact keyBL 2
      · exact keyBL 3
    · have := le_max4_each (cdiff p0) (cdiff p1) (cdiff p2) (cdiff p3) i3
      rwa [pickQ4_comp] at this
  have hiTL : indexOf4 (csum p0) (csum p1) (csum p2) (csum p3)
      (min4 (csum p0) (csum p1) (csum p2) (csum p3)) = i0 := by
    apply indexOf4_unique
    · rw [pickQ4_comp, hminS]
    · intro j hj
      rw [pickQ4_comp, hminS]
      exact ne_of_gt (hTL j hj)
  have hiBR : indexOf4 (csum p0) (csum p1) (csum p2) (csum p3)
      (max4 (csum p0) (csum p1) (csum p2) (csum p3)) = i2 := by
    apply indexOf4_unique
    · rw [pickQ4_comp, hmaxS]
    · intro j hj
      rw [pickQ4_comp, hmaxS]
      exact ne_of_lt (hBR j hj)
  have hiTR : indexOf4 (cdiff p0) (cdiff p1) (cdiff p2) (cdiff p3)
      (min4 (cdiff p0) (cdiff p1) (cdiff p2) (cdiff p3)) = i1 := by
    apply indexOf4_unique
    · rw [pickQ4_comp, hminD]
    · intro j hj
      rw [pickQ4_comp, hminD]
      exact ne_of_gt (hTR j hj)
  have hiBL : indexOf4 (cdiff p0) (cdiff p1) (cdiff p2) (cdiff p3)
      (max4 (cdiff p0) (cdiff p1) (cdiff p2) (cdiff p3)) = i3 := by
    apply indexOf4_unique
    · rw [pickQ4_comp, hmaxD]
    · intro j hj
      rw [pickQ4_comp, hmaxD]
      exact ne_of_lt (hBL j hj)
  show [pick4 p0 p1 p2 p3 (indexOf4 _ _ _ _ _), pick4 p0 p1 p2 p3 (indexOf4 _ _ _ _ _),
        pick4 p0 p1 p2 p3 (indexOf4 _ _ _ _ _), pick4 p0 p1 p2 p3 (indexOf4 _ _ _ _ _)] = _
  rw [hiTL, hiTR, hiBR, hiBL]

/-- C4 counterexample: the claim fails for ties.  The four points (0,0),
(4,4), (6,2), (1,5) are pairwise distinct, no three are collinear, and in the
cyclic order (0,0), (6,2), (4,4), (1,5) they form a strictly convex
quadrilateral; yet the sums tie (4,4) and (6,2) at the maximal `x+y`, so
`sortCanonical` is not idempotent on them: re-sorting its own output changes
the output (the second pass picks (6,2) as BR where the first picked
(4,4)). -/
theorem sortCanonicalCounterexample :
    ((⟨0, 0⟩ : Pt) ≠ ⟨4, 4⟩ ∧ (⟨0, 0⟩ : Pt) ≠ ⟨6, 2⟩ ∧ (⟨0, 0⟩ : Pt) ≠ ⟨1, 5⟩ ∧
     (⟨4, 4⟩ : Pt) ≠ ⟨6, 2⟩ ∧ (⟨4, 4⟩ : Pt) ≠ ⟨1, 5⟩ ∧ (⟨6, 2⟩ : Pt) ≠ ⟨1, 5⟩) ∧
    (¬ collinear3 ⟨0, 0⟩ ⟨4, 4⟩ ⟨6, 2⟩ ∧ ¬ collinear3 ⟨0, 0⟩ ⟨4, 4⟩ ⟨1, 5⟩ ∧
     ¬ collinear3 ⟨0, 0⟩ ⟨6, 2⟩ ⟨1, 5⟩ ∧ ¬ collinear3 ⟨4, 4⟩ ⟨6, 2⟩ ⟨1, 5⟩) ∧
    convexCyclic ⟨0, 0⟩ ⟨6, 2⟩ ⟨4, 4⟩ ⟨1, 5⟩ ∧
    sortCanonical ⟨0, 0⟩ ⟨4, 4⟩ ⟨6, 2⟩ ⟨1, 5⟩ =
      [⟨0, 0⟩, ⟨6, 2⟩, ⟨4, 4⟩, ⟨1, 5⟩] ∧
    resort (sortCanonical ⟨0, 0⟩ ⟨4, 4⟩ ⟨6, 2⟩ ⟨1, 5⟩) ≠
      sortCanonical ⟨0, 0⟩ ⟨4, 4⟩ ⟨6, 2⟩ ⟨1, 5⟩ := by
  refine ⟨?_, ?_, ?_, ?_, ?_⟩
  · norm_num [Pt.mk.injEq]
  · norm_num [collinear3]
  · norm_num [convexCyclic, cross]
  · norm_num [sortCanonical, csum, cdiff, min4, max4, indexOf4, pick4,
      min_def, max_def, Pt.mk.injEq]
  · norm_num [resort, sortCanonical, csum, cdiff, min4, max4, indexOf4, pick4,
      min_def, max_def, Pt.mk.injEq]

/-- C4 amended: under the additional hypothesis that the sums `x+y` and the
differences `y-x` each attain their minimum and maximum at a unique point,
and that these four extreme points have pairwise distinct indices, the sort
returns `[TL, TR, BR, BL]` with TL = argmin(x+y), TR = argmin(y-x),
BR = argmax(x+y), BL = argmax(y-x), and applying the sort a second time to
its own output returns the same sequence. -/
theorem sortCanonicalAmended (p0 p1 p2 p3 : Pt) (i0 i1 i2 i3 : Fin 4)
    (hne : i0 ≠ i1 ∧ i0 ≠ i2 ∧ i0 ≠ i3 ∧ i1 ≠ i2 ∧ i1 ≠ i3 ∧ i2 ≠ i3)
    (hTL : ∀ j, j ≠ i0 →
      csum (pick4 p0 p1 p2 p3 i0) < csum (pick4 p0 p1 p2 p3 j))
    (hTR : ∀ j, j ≠ i1 →
      cdiff (pick4 p0 p1 p2 p3 i1) < cdiff (pick4 p0 p1 p2 p3 j))
    (hBR : ∀ j, j ≠ i2 →
      csum (pick4 p0 p1 p2 p3 j) < csum (pick4 p0 p1 p2 p3 i2))
    (hBL : ∀ j, j ≠ i3 →
      cdiff (pick4 p0 p1 p2 p3 j) < cdiff (pick4 p0 p1 p2 p3 i3)) :
    sortCanonical p0 p1 p2 p3 =
      [pick4 p0 p1 p2 p3 i0, pick4 p0 p1 p2 p3 i1,
       pick4 p0 p1 p2 p3 i2, pick4 p0 p1 p2 p3 i3] ∧
    resort (sortCanonical p0 p1 p2 p3) = sortCanonical p0 p1 p2 p3 := by
  obtain ⟨h01, h02, h03, h12, h13, h23⟩ := hne
  have h1 := sortCanonical_eq p0 p1 p2 p3 i0 i1 i2 i3 hTL hTR hBR hBL
  refine ⟨h1, ?_⟩
  rw [h1]
  have h2 := sortCanonical_eq (pick4 p0 p1 p2 p3 i0) (pick4 p0 p1 p2 p3 i1)
      (pick4 p0 p1 p2 p3 i2) (pick4 p0 p1 p2 p3 i3) 0 1 2 3
      ?tl ?tr ?br ?bl
  case tl =>
    intro j hj
    fin_cases j
    · exact absurd rfl hj
    · simpa [pick4] using hTL i1 (Ne.symm h01)
    · simpa [pick4] using hTL i2 (Ne.symm h02)
    · simpa [pick4] using hTL i3 (Ne.symm h03)
  case tr =>
    intro j hj
    fin_cases j
    · simpa [pick4] using hTR i0 h01
    · exact absurd rfl hj
    · simpa [pick4] using hTR i2 (Ne.symm h12)
    · simpa [pick4] using hTR i3 (Ne.symm h13)
  case br =>
    intro j hj
    fin_cases j
    · simpa [pick4] using hBR i0 h02
    · simpa [pick4] using hBR i1 h12
    · exact absurd rfl hj
    · simpa [pick4] using hBR i3 (Ne.symm h23)
  case bl =>
    intro j hj
    fin_cases j
    · simpa [pick4] using hBL i0 h03
    · simpa [pick4] using hBL i1 h13
    · simpa [pick4] using hBL i2 h23
    · exact absurd rfl hj
  show resort [pick4 p0 p1 p2 p3 i0, pick4 p0 p1 p2 p3 i1,
               pick4 p0 p1 p2 p3 i2, pick4 p0 p1 p2 p3 i3] = _
  rw [resort]
  simpa [pick4] using h2

/-- C4 witness: the amended theorem applied to the unit square
(0,0), (1,0), (1,1), (0,1), whose sums and differences have unique extremes
at four distinct indices. -/
theorem sortCanonicalWitness :
    sortCanonical ⟨0, 0⟩ ⟨1, 0⟩ ⟨1, 1⟩ ⟨0, 1⟩ =
      [⟨0, 0⟩, ⟨1, 0⟩, ⟨1, 1⟩, ⟨0, 1⟩] ∧
    resort (sortCanonical ⟨0, 0⟩ ⟨1, 0⟩ ⟨1, 1⟩ ⟨0, 1⟩) =
      sortCanonical ⟨0, 0⟩ ⟨1, 0⟩ ⟨1, 1⟩ ⟨0, 1⟩ := by
  have h := sortCanonicalAmended ⟨0, 0⟩ ⟨1, 0⟩ ⟨1, 1⟩ ⟨0, 1⟩ 0 1 2 3
    (by refine ⟨?_, ?_, ?_, ?_, ?_, ?_⟩ <;> decide)
    (by intro j hj; fin_cases j <;>
          first
          | exact absurd rfl hj
          | norm_num [csum, pick4])
    (by intro j hj; fin_cases j <;>
          first
          | exact absurd rfl hj
          | norm_num [cdiff, pick4])
    (by intro j hj; fin_cases j <;>
          first
          | exact absurd rfl hj
          | norm_num [csum, pick4])
    (by intro j hj; fin_cases j <;>
          first
          | exact absurd rfl hj
          | norm_num [cdiff, pick4])
  simpa [pick4] using h

end DocScan
